import Mathlib

/-!
Verification of the BIRD database-statistics scripts
(`analyze_database_table_column.py` and `analyze_database_tables.py`).

The two Python scripts are embedded shallowly:

* The filesystem seen by `os.walk` is a tree `FSTree` of file names and
  subdirectories; `osWalk` reproduces the top-down walk order.  A root
  directory that does not exist is modelled as `Option.none` (on such a
  root `os.walk` yields nothing).
* A SQLite database file is modelled by `DBContent`: either opening the
  connection raises, or listing `sqlite_master` raises, or it holds a list
  of tables, each table recording the outcome (value or raised exception)
  of its `PRAGMA table_info` and `SELECT COUNT(*)` queries.  The mapping
  from file path to content is a `DBEnv`.
* Python strings are Lean `String`s; string primitives used by the code
  (`str.endswith`, `os.path.basename`, `os.path.splitext`) are implemented
  over the character list so that everything evaluates by `decide`.
* Python dicts are association lists in insertion order, with assignment
  overwriting the value of an existing key in place.
* `print` output of the schema inspectors is returned explicitly: each
  inspector returns its result together with the list of diagnostic lines
  it printed.
* The plotly figure is modelled by the `BarChart` record holding exactly
  the data the script sets (bar positions, heights, text annotations, the
  x-axis range and the linear tick step); `chartTicks` derives the tick
  positions a linear axis with `tick0 = 0`, `dtick = 1` renders inside the
  range.  `min(x)` / `max(x)` on an empty list raise, hence the plot
  function returns an `Option`.
* `csv.writer` with the default dialect is modelled by `write_csv_report`
  (minimal quoting, `"` escaped by doubling, rows terminated by CRLF) and
  an independent fuel-based reader `parseCSV` is used to state the
  round-trip claim.
-/

/-- Python `str.endswith(suffix)` on Python strings (character-wise suffix test). -/
def endswith (s suffix : String) : Bool :=
  List.isSuffixOf suffix.data s.data

/-- Python `os.path.join(a, b)` for a relative file name `b`. -/
def osPathJoin (a b : String) : String := a ++ "/" ++ b

/-- Split a character list at every occurrence of `c` (like `str.split`). -/
def splitOnChar (c : Char) : List Char → List (List Char)
  | [] => [[]]
  | x :: xs =>
    let r := splitOnChar c xs
    if x == c then [] :: r
    else
      match r with
      | [] => [[x]]
      | h :: t => (x :: h) :: t

/-- Python `os.path.basename p`: the part of the path after the last `/`. -/
def basename (p : String) : String :=
  String.mk ((splitOnChar '/' p.data).getLastD [])

/-- Index of the last occurrence of `c` in the list, if any. -/
def lastIdxOf (c : Char) : List Char → Option Nat
  | [] => none
  | x :: xs =>
    match lastIdxOf c xs with
    | some i => some (i + 1)
    | none => if x == c then some 0 else none

/-- Python `os.path.splitext(name)[0]` for a basename: drop the extension starting
at the last dot, unless every character before that dot is itself a dot. -/
def splitextBase (name : String) : String :=
  let cs := name.data
  match lastIdxOf '.' cs with
  | none => name
  | some d => if (cs.take d).any (fun c => c != '.') then String.mk (cs.take d) else name

/-- The filesystem subtree of one directory: its files and subdirectories,
in the order `os.walk` reports them. -/
inductive FSTree where
  | node : List String → List (String × FSTree) → FSTree

mutual

/-- Walk of `path` on the tree `t` as `os.walk` performs it, top-down: the entry of `path` itself
(its directory path and file-name list), then the walks of its
subdirectories in order.  The `dirs` component of Python's triple is not
consumed by the scripts and is omitted. -/
def osWalk (path : String) : FSTree → List (String × List String)
  | .node files subdirs => (path, files) :: osWalkList path subdirs

/-- Walks of a list of subdirectories, concatenated in order. -/
def osWalkList (path : String) : List (String × FSTree) → List (String × List String)
  | [] => []
  | (d, t) :: rest => osWalk (osPathJoin path d) t ++ osWalkList path rest

end

/-- Walk of `root_dir` (`os.walk`) including the missing-root case: a nonexistent root
(`none`) yields no entries at all. -/
def pyOsWalk (root_dir : String) : Option FSTree → List (String × List String)
  | none => []
  | some t => osWalk root_dir t

namespace AnalyzeDatabaseTableColumn

/-- Function `get_database_files` of `analyze_database_table_column.py`: walk the
root directory and collect, in walk order, every file whose name ends in
`.sqlite` or `.db`, joined to its directory path. -/
def get_database_files (root_dir : String) (fs : Option FSTree) : List String :=
  (pyOsWalk root_dir fs).foldl
    (fun sqlite_files e =>
      e.2.foldl
        (fun acc file =>
          if endswith file ".sqlite" || endswith file ".db" then
            acc ++ [osPathJoin e.1 file]
          else acc)
        sqlite_files)
    []

end AnalyzeDatabaseTableColumn

namespace AnalyzeDatabaseTables

/-- Function `get_database_files` of `analyze_database_tables.py`: textually the same
implementation as the one in `analyze_database_table_column.py`. -/
def get_database_files (root_dir : String) (fs : Option FSTree) : List String :=
  (pyOsWalk root_dir fs).foldl
    (fun sqlite_files e =>
      e.2.foldl
        (fun acc file =>
          if endswith file ".sqlite" || endswith file ".db" then
            acc ++ [osPathJoin e.1 file]
          else acc)
        sqlite_files)
    []

end AnalyzeDatabaseTables

/-- A file name matches the recognized database extensions. -/
def matchesExt (file : String) : Bool :=
  endswith file ".sqlite" || endswith file ".db"

/-- Number of matching files in a walk result. -/
def numMatching (w : List (String × List String)) : Nat :=
  (w.map (fun e => (e.2.filter matchesExt).length)).sum

/-- Specification-side description of the discoverer's output: for each
walk entry, the matching files joined to their directory path, in order. -/
def walkDbFiles (w : List (String × List String)) : List String :=
  w.flatMap (fun e => (e.2.filter matchesExt).map (osPathJoin e.1))

/-- Outcome of one table in a database: the table's catalog name and the
outcomes of its two per-table queries — `PRAGMA table_info` (the list of
column names, or the message of the exception it raises) and
`SELECT COUNT(*)` (the row count, or the message of the exception it
raises). -/
structure TableEntry where
  name : String
  pragmaResult : Except String (List String)
  countResult : Except String Nat

/-- What happens when a database file is opened and read: `connect` raises,
the `sqlite_master` listing raises, or the catalog holds these tables in
this order. -/
inductive DBContent where
  | connectError : String → DBContent
  | masterError : String → DBContent
  | tables : List TableEntry → DBContent

/-- The database world: content behind every file path. -/
def DBEnv := String → DBContent

/-- Whether an `Except` is a success. -/
def exOk {α : Type} : Except String α → Bool
  | .ok _ => true
  | .error _ => false

/-- Value of a successful `Except` (default for errors; the loops below
never read it on an error). -/
def exGet : Except String (List String) → List String
  | .ok v => v
  | .error _ => []

/-- The tables of a database content (empty when opening or listing
raises). -/
def dbTables : DBContent → List TableEntry
  | .connectError _ => []
  | .masterError _ => []
  | .tables ts => ts

/-- The diagnostic line printed by both scripts' `except` blocks:
the Python f-string of 处理数据库, the path, 时出错 and the message. -/
def errLine (db_path msg : String) : String :=
  "处理数据库 " ++ db_path ++ " 时出错: " ++ msg

namespace AnalyzeDatabaseTableColumn

/-- The per-table schema summary stored under a table name:
`{'columns': [...], 'count': len(columns)}`. -/
structure TableStat where
  columns : List String
  count : Nat
deriving DecidableEq

/-- Python dict assignment `d[k] = v` on an insertion-ordered association
list: overwrite in place if `k` is present, else append. -/
def dictInsert (d : List (String × TableStat)) (k : String) (v : TableStat) :
    List (String × TableStat) :=
  if d.any (fun p => p.1 == k) then
    d.map (fun p => if p.1 == k then (k, v) else p)
  else d ++ [(k, v)]

/-- The `for (table_name,) in tables:` loop of `get_column_stats`: for each
table run `PRAGMA table_info`; on the first exception stop and report its
message, keeping everything accumulated so far. -/
def colStatsLoop : List TableEntry → List (String × TableStat) →
    List (String × TableStat) × Option String
  | [], acc => (acc, none)
  | t :: rest, acc =>
    match t.pragmaResult with
    | .error msg => (acc, some msg)
    | .ok columns =>
      colStatsLoop rest (dictInsert acc t.name ⟨columns, columns.length⟩)

/-- Function `get_column_stats(db_path)`: table name → schema summary, plus the list
of diagnostic lines printed.  Any exception raised while opening the
connection, listing `sqlite_master` or processing a table is caught, one
diagnostic naming `db_path` is printed, and the statistics accumulated so
far are returned. -/
def get_column_stats (env : DBEnv) (db_path : String) :
    List (String × TableStat) × List String :=
  match env db_path with
  | .connectError msg => ([], [errLine db_path msg])
  | .masterError msg => ([], [errLine db_path msg])
  | .tables ts =>
    match colStatsLoop ts [] with
    | (table_stats, none) => (table_stats, [])
    | (table_stats, some msg) => (table_stats, [errLine db_path msg])

/-- Whether `get_column_stats` hits an exception on this content: opening
or listing raises, or some table's `PRAGMA table_info` raises. -/
def colStatsFails : DBContent → Bool
  | .connectError _ => true
  | .masterError _ => true
  | .tables ts => ts.any (fun t => !(exOk t.pragmaResult))

/-- Message of the first per-table exception `get_column_stats` hits. -/
def colFirstErr : List TableEntry → Option String
  | [] => none
  | t :: rest =>
    match t.pragmaResult with
    | .error m => some m
    | .ok _ => colFirstErr rest

/-- The dictionary entry `get_column_stats` stores for one table. -/
def colRecord (t : TableEntry) : String × TableStat :=
  (t.name, ⟨exGet t.pragmaResult, (exGet t.pragmaResult).length⟩)

/-- Update `column_dist[column_count] += 1` on a `defaultdict(int)` kept as an
insertion-ordered association list: increment the entry of `k` if present,
else append `(k, 1)`. -/
def histIncr (h : List (Nat × Nat)) (k : Nat) : List (Nat × Nat) :=
  if h.any (fun p => p.1 == k) then
    h.map (fun p => if p.1 == k then (p.1, p.2 + 1) else p)
  else h ++ [(k, 1)]

/-- Dict lookup with default `0` (the histogram's reading of a key). -/
def histLookup (h : List (Nat × Nat)) (k : Nat) : Nat :=
  match h.find? (fun p => p.1 == k) with
  | some p => p.2
  | none => 0

/-- Folding a list of column counts into a histogram. -/
def histFoldList (h : List (Nat × Nat)) (l : List Nat) : List (Nat × Nat) :=
  l.foldl histIncr h

/-- Sum of the histogram's values. -/
def histSum (h : List (Nat × Nat)) : Nat :=
  (h.map Prod.snd).sum

/-- The histogram's keys, in insertion order. -/
def histKeys (h : List (Nat × Nat)) : List Nat :=
  h.map Prod.fst

/-- Function `analyze_columns(root_dir)`: fold every discovered database's table
statistics into the column-count distribution. -/
def analyze_columns (env : DBEnv) (root_dir : String) (fs : Option FSTree) :
    List (Nat × Nat) :=
  let db_files := get_database_files root_dir fs
  db_files.foldl
    (fun column_dist db_file =>
      ((get_column_stats env db_file).1).foldl
        (fun d p => histIncr d p.2.count) column_dist)
    []

/-- The multiset (as list, in processing order) of per-table column counts
the inspector observes over one run of `analyze_columns`. -/
def observedCounts (env : DBEnv) (root_dir : String) (fs : Option FSTree) :
    List Nat :=
  (get_database_files root_dir fs).flatMap
    (fun f => ((get_column_stats env f).1).map (fun p => p.2.count))

/-- Total number of catalog tables across a list of database files. -/
def totalTables (env : DBEnv) (files : List String) : Nat :=
  (files.map (fun f => (dbTables (env f)).length)).sum

/-- The figure assembled by `plot_column_distribution`: the bar positions
`x`, bar heights `y`, the per-bar text annotations, the x-axis range and
the linear tick step. -/
structure BarChart where
  x : List Nat
  y : List Nat
  text : List Nat
  rangeLo : ℚ
  rangeHi : ℚ
  dtick : ℤ
deriving DecidableEq

/-- Python `min` over a list: raises (`none`) on the empty list. -/
def pyMin : List Nat → Option Nat
  | [] => none
  | x :: xs => some (xs.foldl Nat.min x)

/-- Python `max` over a list: raises (`none`) on the empty list. -/
def pyMax : List Nat → Option Nat
  | [] => none
  | x :: xs => some (xs.foldl Nat.max x)

/-- Function `plot_column_distribution(column_dist)`: bars at the sorted keys with
the dict's values as heights and text, x-axis in linear tick mode with
`dtick = 1` and range `[min(x) - 0.5, max(x) + 0.5]`.  When the dict is
empty, `min(x)` raises `ValueError` before the figure is written, so no
figure is produced (`none`). -/
def plot_column_distribution (column_dist : List (Nat × Nat)) : Option BarChart :=
  let x := List.insertionSort (· ≤ ·) (column_dist.map Prod.fst)
  let y := x.map (fun k => histLookup column_dist k)
  match pyMin x, pyMax x with
  | some m, some M => some ⟨x, y, y, (m : ℚ) - 1/2, (M : ℚ) + 1/2, 1⟩
  | _, _ => none

/-- The tick positions a plotly linear axis (`tick0 = 0`, step `dtick = 1`)
renders inside the closed range: every integer `z` with
`rangeLo ≤ z ≤ rangeHi`. -/
def chartTicks (c : BarChart) : List ℤ :=
  (List.range (⌊c.rangeHi⌋ + 1 - ⌈c.rangeLo⌉).toNat).map (fun i => ⌈c.rangeLo⌉ + i)

end AnalyzeDatabaseTableColumn

namespace AnalyzeDatabaseTables

/-- One record of `get_table_info`'s result list (the Python dict built for
one table), with the fields in the order the script fills them. -/
structure TableInfo where
  database_name : String
  table_name : String
  column_count : Nat
  column_names : List String
  row_count : Nat
deriving DecidableEq

/-- The `for (table_name,) in tables:` loop of `get_table_info`: for each
table run `PRAGMA table_info`, then `SELECT COUNT(*)`, and append the
completed record; on the first exception stop and report its message,
keeping the records appended so far (a record is only appended after both
queries of its table succeeded). -/
def tableInfoLoop (database_name : String) : List TableEntry → List TableInfo →
    List TableInfo × Option String
  | [], acc => (acc, none)
  | t :: rest, acc =>
    match t.pragmaResult with
    | .error msg => (acc, some msg)
    | .ok columns =>
      match t.countResult with
      | .error msg => (acc, some msg)
      | .ok row_count =>
        tableInfoLoop database_name rest
          (acc ++ [⟨database_name, t.name, columns.length, columns, row_count⟩])

/-- Function `get_table_info(db_path)`: the list of per-table records, plus the list
of diagnostic lines printed.  Any exception raised while opening the
connection, listing `sqlite_master` or processing a table is caught, one
diagnostic naming `db_path` is printed, and the records accumulated so far
are returned. -/
def get_table_info (env : DBEnv) (db_path : String) :
    List TableInfo × List String :=
  let database_name := splitextBase (basename db_path)
  match env db_path with
  | .connectError msg => ([], [errLine db_path msg])
  | .masterError msg => ([], [errLine db_path msg])
  | .tables ts =>
    match tableInfoLoop database_name ts [] with
    | (tables_info, none) => (tables_info, [])
    | (tables_info, some msg) => (tables_info, [errLine db_path msg])

/-- Whether `get_table_info` hits an exception on this content: opening or
listing raises, or some table's `PRAGMA table_info` or `SELECT COUNT(*)`
raises. -/
def tableInfoFails : DBContent → Bool
  | .connectError _ => true
  | .masterError _ => true
  | .tables ts => ts.any (fun t => !(exOk t.pragmaResult) || !(exOk t.countResult))

/-- Message of the first per-table exception `get_table_info` hits (the
pragma query of a table runs before its count query). -/
def infoFirstErr : List TableEntry → Option String
  | [] => none
  | t :: rest =>
    match t.pragmaResult with
    | .error m => some m
    | .ok _ =>
      match t.countResult with
      | .error m => some m
      | .ok _ => infoFirstErr rest

/-- The record `get_table_info` appends for one fully processed table. -/
def infoRecord (database_name : String) (t : TableEntry) : TableInfo :=
  ⟨database_name, t.name, (exGet t.pragmaResult).length, exGet t.pragmaResult,
    match t.countResult with | .ok n => n | .error _ => 0⟩

/-- The collection loop of `main`: `all_tables_info.extend(tables_info)`
over every discovered database file. -/
def collect_all_tables_info (env : DBEnv) (db_files : List String) :
    List TableInfo :=
  db_files.foldl (fun all_tables_info db_file =>
    all_tables_info ++ (get_table_info env db_file).1) []

/-- Whether a field must be quoted by `csv.writer`'s default dialect
(`QUOTE_MINIMAL`): it contains the delimiter, the quote character, or a
character of the line terminator `"\r\n"`. -/
def needsQuote (s : String) : Bool :=
  s.data.any (fun c => c == ',' || c == '"' || c == '\r' || c == '\n')

/-- Double every quote character (the writer's escaping inside a quoted
field). -/
def escQuotes : List Char → List Char
  | [] => []
  | c :: cs => if c == '"' then '"' :: '"' :: escQuotes cs else c :: escQuotes cs

/-- One field as `csv.writer` emits it: quoted (with doubled inner quotes)
exactly when needed. -/
def csvField (s : String) : String :=
  if needsQuote s then "\"" ++ String.mk (escQuotes s.data) ++ "\"" else s

/-- Fields of one row joined by the delimiter. -/
def csvJoin : List String → String
  | [] => ""
  | [f] => csvField f
  | f :: fs => csvField f ++ "," ++ csvJoin fs

/-- One `writer.writerow(...)` call: the joined fields plus the default
line terminator `"\r\n"`. -/
def csvRowString (fields : List String) : String :=
  csvJoin fields ++ "\r\n"

/-- The row of cells written for one table record. -/
def reportRow (info : TableInfo) : List String :=
  [info.database_name, info.table_name, toString info.row_count,
   toString info.column_count, String.intercalate ", " info.column_names]

/-- The header row written first. -/
def headerRow : List String :=
  ["Database", "Table", "Rows", "Columns", "Column Names"]

/-- The concatenation of a sequence of `writer.writerow` calls. -/
def csvLines : List (List String) → String
  | [] => ""
  | r :: rs => csvRowString r ++ csvLines rs

/-- Function `write_csv_report(tables_info)`: the full text written to the output
file — the header row followed by one row per record, in order. -/
def write_csv_report (tables_info : List TableInfo) : String :=
  csvRowString headerRow ++ csvLines (tables_info.map reportRow)

/-- Reader for the body of a quoted CSV field (the opening quote already
consumed): a doubled quote stands for a literal quote, a single quote ends
the field; `none` on an unterminated field. -/
def parseQuoted : List Char → List Char → Option (String × List Char)
  | [], _ => none
  | c :: rest, acc =>
    if c == '"' then
      match rest with
      | [] => some (String.mk acc, [])
      | c2 :: rest2 =>
        if c2 == '"' then parseQuoted rest2 (acc ++ ['"'])
        else some (String.mk acc, c2 :: rest2)
    else parseQuoted rest (acc ++ [c])

/-- Reader for an unquoted CSV field: everything up to the next delimiter
or line-terminator character. -/
def parseUnquoted : List Char → List Char → String × List Char
  | [], acc => (String.mk acc, [])
  | c :: rest, acc =>
    if c == ',' || c == '\r' || c == '\n' then (String.mk acc, c :: rest)
    else parseUnquoted rest (acc ++ [c])

/-- Reader for one CSV field, quoted or not. -/
def parseField : List Char → Option (String × List Char)
  | '"' :: rest => parseQuoted rest []
  | s => some (parseUnquoted s [])

/-- Fuel-bounded reader for one CSV record (one row): fields separated by
`,`, the row ended by `"\r\n"` or the end of input.  The fuel bounds the
number of fields read; `parseCSV` supplies more fuel than any row of its
input can have fields. -/
def parseRecordF : Nat → List Char → List String → Option (List String × List Char)
  | 0, _, _ => none
  | fuel + 1, s, acc =>
    match parseField s with
    | none => none
    | some (f, rest) =>
      match rest with
      | ',' :: rest2 => parseRecordF fuel rest2 (acc ++ [f])
      | '\r' :: '\n' :: rest2 => some (acc ++ [f], rest2)
      | [] => some (acc ++ [f], [])
      | _ => none

/-- Fuel-bounded reader for a CSV text: records until the input is
exhausted.  The fuel bounds the number of records. -/
def parseCSVF : Nat → List Char → Option (List (List String))
  | 0, _ => none
  | fuel + 1, s =>
    if s = [] then some []
    else
      match parseRecordF (s.length + 1) s [] with
      | none => none
      | some (row, rest) => (parseCSVF fuel rest).map (fun rows => row :: rows)

/-- Reader for a whole CSV text: a row can hold at most `length + 1`
fields and a text at most `length + 1` rows, so this fuel is always
enough. -/
def parseCSV (s : List Char) : Option (List (List String)) :=
  parseCSVF (s.length + 1) s

end AnalyzeDatabaseTables

/-- Test world: every file fails at `sqlite3.connect`. -/
def envConnectFail : DBEnv := fun _ =>
  .connectError "unable to open database file"

/-- Test world: every file holds one good table, then one whose
`PRAGMA table_info` raises. -/
def envPartial : DBEnv := fun _ =>
  .tables [⟨"a", .ok ["x"], .ok 0⟩, ⟨"b", .error "malformed database schema", .ok 0⟩]

/-- Test world: every file holds one two-column table with five rows. -/
def envAllOk : DBEnv := fun _ =>
  .tables [⟨"t1", .ok ["c1", "c2"], .ok 5⟩]

/-- Test world: every file holds one table with no columns. -/
def envZeroCols : DBEnv := fun _ =>
  .tables [⟨"t", .ok [], .ok 0⟩]

/-- Test world: `r/a.db` has a two-column table, everything else a
one-column table. -/
def envSwap : DBEnv := fun p =>
  if p = "r/a.db" then .tables [⟨"t", .ok ["x", "y"], .ok 0⟩]
  else .tables [⟨"u", .ok ["z"], .ok 0⟩]

/-- Test directory: one database file. -/
def treeOne : FSTree := .node ["a.db"] []

/-- Test directory: two database files, `a.db` first. -/
def treeTwo : FSTree := .node ["a.db", "b.db"] []

/-- Test directory: the same two database files, `b.db` first. -/
def treeTwoRev : FSTree := .node ["b.db", "a.db"] []

/-- Test directory: a matching file and an unrelated file at the top, a
second matching file one level down. -/
def treeNested : FSTree :=
  .node ["a.db", "readme.txt"] [("sub", .node ["b.sqlite"] [])]

theorem string_data_append (a b : String) : (a ++ b).data = a.data ++ b.data := rfl

namespace AnalyzeDatabaseTables

/-- Round trip of the quoted-field body: reading back an escaped body
followed by the closing quote recovers the body, provided the character
after the closing quote is not another quote. -/
theorem parseQuoted_roundtrip : ∀ (cs acc rest : List Char),
    (∀ c r', rest = c :: r' → c ≠ '"') →
    parseQuoted (escQuotes cs ++ '"' :: rest) acc = some (String.mk (acc ++ cs), rest) := by
  intro cs
  induction cs with
  | nil =>
    intro acc rest hrest
    match rest with
    | [] => simp [escQuotes, parseQuoted]
    | c :: r' =>
      have hc : (c == '"') = false := by
        simpa using hrest c r' rfl
      simp [escQuotes, parseQuoted, hc]
  | cons c cs ih =>
    intro acc rest hrest
    by_cases hc : c = '"'
    · subst hc
      simp only [escQuotes, if_pos (by rfl : ('"' == '"') = true), List.cons_append]
      rw [parseQuoted.eq_def]
      simp only [beq_self_eq_true, if_true]
      rw [ih (acc ++ ['"']) rest hrest]
      simp
    · have hc' : (c == '"') = false := by simpa using hc
      simp only [escQuotes, hc', Bool.false_eq_true, if_false, List.cons_append]
      rw [parseQuoted.eq_def]
      simp only [hc', Bool.false_eq_true, if_false]
      rw [ih (acc ++ [c]) rest hrest]
      simp

/-- Round trip of an unquoted field: a body free of delimiter and
terminator characters is read back whole when followed by end-of-input, a
delimiter or a carriage return. -/
theorem parseUnquoted_roundtrip : ∀ (cs acc rest : List Char),
    (∀ c ∈ cs, c ≠ ',' ∧ c ≠ '\r' ∧ c ≠ '\n') →
    (rest = [] ∨ (∃ r', rest = ',' :: r') ∨ (∃ r', rest = '\r' :: r')) →
    parseUnquoted (cs ++ rest) acc = (String.mk (acc ++ cs), rest) := by
  intro cs
  induction cs with
  | nil =>
    intro acc rest hcs hrest
    rcases hrest with h | ⟨r', h⟩ | ⟨r', h⟩ <;> subst h <;> simp [parseUnquoted]
  | cons c cs ih =>
    intro acc rest hcs hrest
    have hc := hcs c (by simp)
    have hstop : (c == ',' || c == '\r' || c == '\n') = false := by
      simp [hc.1, hc.2.1, hc.2.2]
    simp only [List.cons_append, parseUnquoted, hstop, Bool.false_eq_true, if_false]
    have hih := ih (acc ++ [c]) rest (fun d hd => hcs d (by simp [hd])) hrest
    simpa [List.append_eq, List.append_assoc] using hih

/-- Reading one field on input that does not start with a quote reads an
unquoted field. -/
theorem parseField_not_quote (s : List Char)
    (h : ∀ c r', s = c :: r' → c ≠ '"') :
    parseField s = some (parseUnquoted s []) := by
  rw [parseField.eq_def]
  split
  · rename_i rest
    exact absurd rfl (h '"' rest rfl)
  · rfl

/-- Round trip of one rendered field: reading back `csvField f` recovers
`f` exactly, when followed by end-of-input, a delimiter or a carriage
return. -/
theorem parseField_roundtrip (f : String) (rest : List Char)
    (hrest : rest = [] ∨ (∃ r', rest = ',' :: r') ∨ (∃ r', rest = '\r' :: r')) :
    parseField ((csvField f).data ++ rest) = some (f, rest) := by
  have hrq : ∀ c r', rest = c :: r' → c ≠ '"' := by
    rcases hrest with h | ⟨r', h⟩ | ⟨r', h⟩ <;> subst h
    · intro c r' h; cases h
    · intro c r' h; cases h; decide
    · intro c r' h; cases h; decide
  by_cases hq : needsQuote f = true
  · have hdata : ((csvField f).data ++ rest) =
        '"' :: (escQuotes f.data ++ '"' :: rest) := by
      simp [csvField, hq, string_data_append]
    rw [hdata]
    have : parseField ('"' :: (escQuotes f.data ++ '"' :: rest)) =
        parseQuoted (escQuotes f.data ++ '"' :: rest) [] := rfl
    rw [this, parseQuoted_roundtrip f.data [] rest (fun c r' hr => hrq c r' hr)]
    simp
  · have hq' : needsQuote f = false := by simpa using hq
    have hnostop : ∀ c ∈ f.data, c ≠ ',' ∧ c ≠ '\r' ∧ c ≠ '\n' := by
      intro c hc
      simp only [needsQuote, List.any_eq_false] at hq'
      have h2 := hq' c hc
      simp only [Bool.or_eq_true, beq_iff_eq, not_or] at h2
      tauto
    have hnoq : ∀ c ∈ f.data, c ≠ '"' := by
      intro c hc
      simp only [needsQuote, List.any_eq_false] at hq'
      have h2 := hq' c hc
      simp only [Bool.or_eq_true, beq_iff_eq, not_or] at h2
      tauto
    have hfield : csvField f = f := by simp [csvField, hq']
    rw [hfield]
    have hhead : ∀ c r', (f.data ++ rest) = c :: r' → c ≠ '"' := by
      intro c r' hcr
      match hd : f.data with
      | [] =>
        rw [hd] at hcr
        simp only [List.nil_append] at hcr
        exact hrq c r' hcr
      | d :: ds =>
        rw [hd] at hcr
        simp at hcr
        rw [← hcr.1]
        exact hnoq d (by rw [hd]; simp)
    rw [parseField_not_quote (f.data ++ rest) hhead]
    rw [parseUnquoted_roundtrip f.data [] rest hnostop hrest]
    simp

/-- Round trip of one rendered row: reading back the joined fields followed
by the CRLF terminator recovers exactly the fields, for any fuel at least
the field count. -/
theorem parseRecordF_roundtrip : ∀ (fields acc : List String) (rest' : List Char)
    (fuel : Nat), fields ≠ [] → fields.length ≤ fuel →
    parseRecordF fuel ((csvJoin fields).data ++ '\r' :: '\n' :: rest') acc =
      some (acc ++ fields, rest') := by
  intro fields
  induction fields with
  | nil => intro acc rest' fuel h _; exact absurd rfl h
  | cons f fs ih =>
    intro acc rest' fuel _ hfuel
    match fuel with
    | 0 => simp at hfuel
    | g + 1 =>
      match fs with
      | [] =>
        have h1 := parseField_roundtrip f ('\r' :: '\n' :: rest')
          (Or.inr (Or.inr ⟨'\n' :: rest', rfl⟩))
        have hj : csvJoin [f] = csvField f := rfl
        rw [hj]
        simp only [parseRecordF, h1]
      | f2 :: fs2 =>
        have hj : csvJoin (f :: f2 :: fs2) = csvField f ++ "," ++ csvJoin (f2 :: fs2) := rfl
        rw [hj]
        have hdata : ((csvField f ++ "," ++ csvJoin (f2 :: fs2)).data ++ '\r' :: '\n' :: rest') =
            ((csvField f).data ++ ',' :: ((csvJoin (f2 :: fs2)).data ++ '\r' :: '\n' :: rest')) := by
          simp only [string_data_append, List.append_assoc]
          rfl
        rw [hdata]
        have h1 := parseField_roundtrip f
          (',' :: ((csvJoin (f2 :: fs2)).data ++ '\r' :: '\n' :: rest'))
          (Or.inr (Or.inl ⟨_, rfl⟩))
        simp only [parseRecordF, h1]
        rw [ih (acc ++ [f]) rest' g (by simp) (by simpa using hfuel)]
        simp

/-- A rendered row has at least one character per field beyond the
first. -/
theorem csvJoin_data_length : ∀ (fields : List String),
    fields.length ≤ (csvJoin fields).data.length + 1 := by
  intro fields
  induction fields with
  | nil => simp
  | cons f fs ih =>
    match fs with
    | [] => simp
    | f2 :: fs2 =>
      have hj : csvJoin (f :: f2 :: fs2) = csvField f ++ "," ++ csvJoin (f2 :: fs2) := rfl
      rw [hj]
      simp only [string_data_append, List.length_append, List.length_cons]
      simp only [List.length_cons] at ih ⊢
      have : (",").data.length = 1 := rfl
      omega

/-- A rendered report has at least two characters per row. -/
theorem csvLines_data_length : ∀ (rows : List (List String)),
    rows.length ≤ (csvLines rows).data.length := by
  intro rows
  induction rows with
  | nil => simp
  | cons r rs ih =>
    have hl : (csvLines (r :: rs)).data =
        (csvJoin r).data ++ '\r' :: '\n' :: (csvLines rs).data := by
      show (csvRowString r ++ csvLines rs).data = _
      simp only [string_data_append, csvRowString, List.append_assoc]
      rfl
    rw [hl]
    simp only [List.length_append, List.length_cons]
    omega

/-- Round trip of a whole written report through the fuel-bounded reader. -/
theorem parseCSVF_roundtrip : ∀ (rows : List (List String)) (fuel : Nat),
    (∀ r ∈ rows, r ≠ []) → rows.length + 1 ≤ fuel →
    parseCSVF fuel (csvLines rows).data = some rows := by
  intro rows
  induction rows with
  | nil =>
    intro fuel _ hfuel
    match fuel with
    | 0 => simp at hfuel
    | g + 1 => simp [csvLines, parseCSVF]
  | cons row rs ih =>
    intro fuel hne hfuel
    match fuel with
    | 0 => simp at hfuel
    | g + 1 =>
      have hdata : (csvLines (row :: rs)).data =
          ((csvJoin row).data ++ '\r' :: '\n' :: (csvLines rs).data) := by
        show (csvRowString row ++ csvLines rs).data = _
        simp only [string_data_append, csvRowString, List.append_assoc]
        rfl
      rw [hdata]
      have hnn : ((csvJoin row).data ++ '\r' :: '\n' :: (csvLines rs).data) ≠ [] := by
        simp
      have hflen : row.length ≤
          ((csvJoin row).data ++ '\r' :: '\n' :: (csvLines rs).data).length + 1 := by
        have := csvJoin_data_length row
        simp only [List.length_append, List.length_cons]
        omega
      have hrec := parseRecordF_roundtrip row []
        (csvLines rs).data
        (((csvJoin row).data ++ '\r' :: '\n' :: (csvLines rs).data).length + 1)
        (hne row (by simp)) hflen
      simp only [parseCSVF, if_neg hnn, hrec, List.nil_append]
      rw [ih g (fun r hr => hne r (by simp [hr])) (by simpa using hfuel)]
      simp

/-- Round trip of a whole written report: reading back the concatenated
rows recovers exactly the row list (every row written is nonempty). -/
theorem parseCSV_roundtrip (rows : List (List String))
    (hne : ∀ r ∈ rows, r ≠ []) :
    parseCSV (csvLines rows).data = some rows := by
  have hlen := csvLines_data_length rows
  exact parseCSVF_roundtrip rows ((csvLines rows).data.length + 1) hne (by omega)

end AnalyzeDatabaseTables

namespace AnalyzeDatabaseTableColumn

theorem gdf_inner_foldl (root : String) : ∀ (files acc : List String),
    files.foldl
      (fun acc file =>
        if endswith file ".sqlite" || endswith file ".db" then
          acc ++ [osPathJoin root file]
        else acc) acc
    = acc ++ (files.filter matchesExt).map (osPathJoin root) := by
  intro files
  induction files with
  | nil => intro acc; simp
  | cons f fl ih =>
    intro acc
    by_cases h : (endswith f ".sqlite" || endswith f ".db") = true
    · simp only [List.foldl_cons, h, if_true]
      rw [ih]
      have hm : matchesExt f = true := h
      simp [List.filter_cons, hm, List.append_assoc]
    · have h' : (endswith f ".sqlite" || endswith f ".db") = false := by simpa using h
      simp only [List.foldl_cons, h', Bool.false_eq_true, if_false]
      rw [ih]
      have hm : matchesExt f = false := h'
      simp [List.filter_cons, hm]

theorem gdf_walk_foldl : ∀ (w : List (String × List String)) (acc : List String),
    w.foldl
      (fun sqlite_files e =>
        e.2.foldl
          (fun acc file =>
            if endswith file ".sqlite" || endswith file ".db" then
              acc ++ [osPathJoin e.1 file]
            else acc)
          sqlite_files) acc
    = acc ++ walkDbFiles w := by
  intro w
  induction w with
  | nil => intro acc; simp [walkDbFiles]
  | cons e w ih =>
    intro acc
    simp only [List.foldl_cons]
    rw [gdf_inner_foldl e.1 e.2 acc, ih]
    simp [walkDbFiles, List.append_assoc]

/-- The discoverer equals its specification-side description: the matching
files of every walk entry, joined to their directory, in walk order. -/
theorem gdf_eq_walkDbFiles (root_dir : String) (fs : Option FSTree) :
    get_database_files root_dir fs = walkDbFiles (pyOsWalk root_dir fs) := by
  unfold get_database_files
  rw [gdf_walk_foldl]
  simp

theorem walkDbFiles_length (w : List (String × List String)) :
    (walkDbFiles w).length = numMatching w := by
  induction w with
  | nil => rfl
  | cons e w ih =>
    simp only [walkDbFiles, numMatching] at ih ⊢
    simp [ih]

end AnalyzeDatabaseTableColumn

/-- The two scripts' `get_database_files` are the same function. -/
theorem gdf_agree (root_dir : String) (fs : Option FSTree) :
    AnalyzeDatabaseTableColumn.get_database_files root_dir fs =
      AnalyzeDatabaseTables.get_database_files root_dir fs := rfl

namespace AnalyzeDatabaseTableColumn

/-- What `colStatsLoop` computes: it processes exactly the tables before
the first pragma failure (inserting their records in order) and reports
the first failure's message. -/
theorem colStatsLoop_eq : ∀ (ts : List TableEntry) (acc : List (String × TableStat)),
    colStatsLoop ts acc =
      ((ts.takeWhile fun t => exOk t.pragmaResult).foldl
         (fun a t => dictInsert a (colRecord t).1 (colRecord t).2) acc,
       colFirstErr ts) := by
  intro ts
  induction ts with
  | nil => intro acc; rfl
  | cons t rest ih =>
    intro acc
    match hp : t.pragmaResult with
    | .error m =>
      simp [colStatsLoop, hp, colFirstErr, List.takeWhile_cons, exOk]
    | .ok cols =>
      simp only [colStatsLoop, hp]
      rw [ih]
      simp [colFirstErr, hp, List.takeWhile_cons, exOk, colRecord, exGet]

theorem dictInsert_not_mem (d : List (String × TableStat)) (k : String)
    (v : TableStat) (h : (d.any fun p => p.1 == k) = false) :
    dictInsert d k v = d ++ [(k, v)] := by
  simp [dictInsert, h]

theorem mem_dictInsert (p : String × TableStat) (d : List (String × TableStat))
    (k : String) (v : TableStat) (hp : p ∈ dictInsert d k v) :
    p ∈ d ∨ p = (k, v) := by
  unfold dictInsert at hp
  split at hp
  · simp only [List.mem_map] at hp
    obtain ⟨q, hq, hqe⟩ := hp
    by_cases hqk : q.1 = k
    · right
      rw [← hqe]
      simp [hqk]
    · left
      rw [← hqe]
      have hq' : (q.1 == k) = false := by simpa using hqk
      simp only [hq', Bool.false_eq_true, if_false]
      exact hq
  · rcases List.mem_append.mp hp with h1 | h1
    · exact Or.inl h1
    · exact Or.inr (by simpa using h1)

/-- Every record the column-statistics loop produces has its count equal to
the length of its column-name list. -/
theorem colStatsLoop_count_invariant : ∀ (ts : List TableEntry)
    (acc : List (String × TableStat)),
    (∀ p ∈ acc, p.2.count = p.2.columns.length) →
    ∀ p ∈ (colStatsLoop ts acc).1, p.2.count = p.2.columns.length := by
  intro ts
  induction ts with
  | nil =>
    intro acc hacc
    simpa [colStatsLoop] using hacc
  | cons t rest ih =>
    intro acc hacc p hp
    match hpr : t.pragmaResult with
    | .error m =>
      simp only [colStatsLoop, hpr] at hp
      exact hacc p hp
    | .ok cols =>
      simp only [colStatsLoop, hpr] at hp
      refine ih _ ?_ p hp
      intro q hq
      rcases mem_dictInsert q acc t.name ⟨cols, cols.length⟩ hq with h1 | h1
      · exact hacc q h1
      · rw [h1]

/-- When every table's pragma succeeds and table names are distinct, the
loop appends exactly one record per table, in catalog order. -/
theorem colStatsLoop_all_ok : ∀ (ts : List TableEntry) (acc : List (String × TableStat)),
    (∀ t ∈ ts, exOk t.pragmaResult = true) →
    (ts.map TableEntry.name).Nodup →
    (∀ t ∈ ts, (acc.any fun p => p.1 == t.name) = false) →
    colStatsLoop ts acc = (acc ++ ts.map colRecord, none) := by
  intro ts
  induction ts with
  | nil => intro acc _ _ _; simp [colStatsLoop]
  | cons t rest ih =>
    intro acc hok hnd hdisj
    match hp : t.pragmaResult with
    | .error m =>
      have := hok t (by simp)
      rw [hp] at this
      simp [exOk] at this
    | .ok cols =>
      simp only [colStatsLoop, hp]
      rw [dictInsert_not_mem acc t.name ⟨cols, cols.length⟩ (hdisj t (by simp))]
      have hnd' : (rest.map TableEntry.name).Nodup := by
        simp only [List.map_cons, List.nodup_cons] at hnd
        exact hnd.2
      have hname : t.name ∉ rest.map TableEntry.name := by
        simp only [List.map_cons, List.nodup_cons] at hnd
        exact hnd.1
      have hdisj' : ∀ u ∈ rest,
          (((acc ++ [(t.name, (⟨cols, cols.length⟩ : TableStat))]).any
            fun p => p.1 == u.name) = false) := by
        intro u hu
        simp only [List.any_append, Bool.or_eq_false_iff]
        constructor
        · exact hdisj u (by simp [hu])
        · simp only [List.any_cons, List.any_nil, Bool.or_false]
          have : t.name ≠ u.name := by
            intro hc
            exact hname (by rw [hc]; exact List.mem_map_of_mem TableEntry.name hu)
          simpa using this
      have hrec := ih (acc ++ [(t.name, (⟨cols, cols.length⟩ : TableStat))])
        (fun u hu => hok u (by simp [hu])) hnd' hdisj'
      rw [hrec]
      simp [colRecord, hp, exGet, List.append_assoc]

end AnalyzeDatabaseTableColumn

namespace AnalyzeDatabaseTables

/-- What `tableInfoLoop` computes: it appends exactly one record per table
before the first failure (pragma or count), in catalog order, and reports
the first failure's message. -/
theorem tableInfoLoop_eq (dbn : String) : ∀ (ts : List TableEntry) (acc : List TableInfo),
    tableInfoLoop dbn ts acc =
      (acc ++ (ts.takeWhile fun t => exOk t.pragmaResult && exOk t.countResult).map
         (infoRecord dbn),
       infoFirstErr ts) := by
  intro ts
  induction ts with
  | nil => intro acc; simp [tableInfoLoop, infoFirstErr]
  | cons t rest ih =>
    intro acc
    match hp : t.pragmaResult with
    | .error m =>
      simp [tableInfoLoop, hp, infoFirstErr, List.takeWhile_cons, exOk]
    | .ok cols =>
      match hc : t.countResult with
      | .error m =>
        simp [tableInfoLoop, hp, hc, infoFirstErr, List.takeWhile_cons, exOk]
      | .ok n =>
        simp only [tableInfoLoop, hp, hc]
        rw [ih]
        simp [infoFirstErr, hp, hc, List.takeWhile_cons, exOk, infoRecord, exGet,
          List.append_assoc]

end AnalyzeDatabaseTables

namespace AnalyzeDatabaseTableColumn

theorem histLookup_nil (k : Nat) : histLookup [] k = 0 := rfl

theorem histLookup_cons (a : Nat × Nat) (t : List (Nat × Nat)) (k : Nat) :
    histLookup (a :: t) k = if a.1 == k then a.2 else histLookup t k := by
  simp only [histLookup, List.find?]
  by_cases h : (a.1 == k) = true
  · simp [h]
  · have h' : (a.1 == k) = false := by simpa using h
    simp [h']

theorem histLookup_map_incr_ne (t : List (Nat × Nat)) (j k : Nat) (hne : j ≠ k) :
    histLookup (t.map (fun p => if p.1 == j then (p.1, p.2 + 1) else p)) k
      = histLookup t k := by
  induction t with
  | nil => rfl
  | cons a t ih =>
    simp only [List.map_cons]
    by_cases haj : a.1 = j
    · rw [if_pos (by simpa using haj)]
      rw [histLookup_cons, histLookup_cons]
      have hak : (a.1 == k) = false := by
        simp only [beq_eq_false_iff_ne]
        rw [haj]
        exact hne
      simp only [hak, Bool.false_eq_true, if_false]
      exact ih
    · rw [if_neg (by simpa using haj)]
      rw [histLookup_cons, histLookup_cons]
      by_cases hak : (a.1 == k) = true
      · simp [hak]
      · have hak' : (a.1 == k) = false := by simpa using hak
        simp only [hak', Bool.false_eq_true, if_false]
        exact ih

theorem histLookup_histIncr (h : List (Nat × Nat)) (j k : Nat) :
    histLookup (histIncr h j) k =
      if j = k then histLookup h k + 1 else histLookup h k := by
  induction h with
  | nil =>
    by_cases hj : j = k <;>
      simp [histIncr, histLookup_cons, histLookup_nil, hj]
  | cons a t ih =>
    by_cases hpres : ((a :: t).any fun p => p.1 == j) = true
    · rw [histIncr, if_pos hpres]
      simp only [List.map_cons]
      by_cases haj : a.1 = j
      · rw [if_pos (by simpa using haj)]
        rw [histLookup_cons, histLookup_cons]
        by_cases hak : a.1 = k
        · have hjk : j = k := by rw [← haj, hak]
          simp [hak, hjk]
        · have hjk : j ≠ k := by rw [← haj]; exact hak
          have hak' : (a.1 == k) = false := by simpa using hak
          simp only [hak', Bool.false_eq_true, if_false, if_neg hjk]
          exact histLookup_map_incr_ne t j k hjk
      · rw [if_neg (by simpa using haj)]
        rw [histLookup_cons, histLookup_cons]
        have hpt : (t.any fun p => p.1 == j) = true := by
          simp only [List.any_cons, Bool.or_eq_true] at hpres
          rcases hpres with h1 | h1
          · exact absurd (by simpa using h1) haj
          · exact h1
        by_cases hak : a.1 = k
        · have hjk : j ≠ k := fun hh => haj (by rw [hak, hh])
          simp [hak, hjk]
        · have hak' : (a.1 == k) = false := by simpa using hak
          simp only [hak', Bool.false_eq_true, if_false]
          have := ih
          rw [histIncr, if_pos hpt] at this
          exact this
    · have hpres0 : ((a :: t).any fun p => p.1 == j) = false :=
        Bool.eq_false_iff.mpr hpres
      rw [histIncr, if_neg (by simp [hpres0])]
      have hparts : (a.1 == j) = false ∧ (t.any fun p => p.1 == j) = false := by
        have hh := hpres0
        simp only [List.any_cons, Bool.or_eq_false_iff] at hh
        exact hh
      simp only [List.cons_append]
      rw [histLookup_cons, histLookup_cons]
      by_cases hak : a.1 = k
      · have hjk : j ≠ k := by
          intro hc
          have hx : (a.1 == j) = true := by simp [hak, hc]
          rw [hparts.1] at hx
          cases hx
        simp [hak, hjk]
      · have hak' : (a.1 == k) = false := by simpa using hak
        simp only [hak', Bool.false_eq_true, if_false]
        have := ih
        rw [histIncr, if_neg (by simp [hparts.2])] at this
        exact this

theorem map_incr_id (t : List (Nat × Nat)) (j : Nat)
    (hj : (t.any fun p => p.1 == j) = false) :
    t.map (fun p => if p.1 == j then (p.1, p.2 + 1) else p) = t := by
  induction t with
  | nil => rfl
  | cons a t ih =>
    simp only [List.any_cons, Bool.or_eq_false_iff] at hj
    simp only [List.map_cons, hj.1, Bool.false_eq_true, if_false]
    rw [ih hj.2]

theorem histKeys_histIncr (h : List (Nat × Nat)) (j : Nat) :
    histKeys (histIncr h j) =
      if (h.any fun p => p.1 == j) = true then histKeys h else histKeys h ++ [j] := by
  by_cases hp : (h.any fun p => p.1 == j) = true
  · rw [histIncr, if_pos hp, if_pos hp]
    simp only [histKeys, List.map_map]
    congr 1
    funext p
    simp only [Function.comp_apply]
    by_cases hpj : (p.1 == j) = true
    · rw [if_pos hpj]
    · rw [if_neg hpj]
  · have hp' : (h.any fun p => p.1 == j) = false := Bool.eq_false_iff.mpr hp
    rw [histIncr, if_neg (by simp [hp']), if_neg (by simp [hp'])]
    simp [histKeys]

theorem histSum_map_incr : ∀ (h : List (Nat × Nat)) (j : Nat),
    (histKeys h).Nodup → (h.any fun p => p.1 == j) = true →
    histSum (h.map fun p => if p.1 == j then (p.1, p.2 + 1) else p) = histSum h + 1 := by
  intro h
  induction h with
  | nil => intro j _ hp; simp at hp
  | cons a t ih =>
    intro j hnd hp
    simp only [List.map_cons]
    by_cases haj : (a.1 == j) = true
    · rw [if_pos haj]
      have hjt : (t.any fun p => p.1 == j) = false := by
        rw [Bool.eq_false_iff]
        intro hc
        simp only [List.any_eq_true] at hc
        obtain ⟨p, hpmem, hpj⟩ := hc
        have hjk : a.1 ∈ histKeys t := by
          have hpj' : p.1 = j := by simpa using hpj
          have ha : a.1 = j := by simpa using haj
          rw [ha, ← hpj']
          exact List.mem_map_of_mem Prod.fst hpmem
        simp only [histKeys, List.map_cons, List.nodup_cons] at hnd
        exact hnd.1 hjk
      rw [map_incr_id t j hjt]
      simp only [histSum, List.map_cons, List.sum_cons]
      omega
    · rw [if_neg haj]
      have hpt : (t.any fun p => p.1 == j) = true := by
        simp only [List.any_cons, Bool.or_eq_true] at hp
        rcases hp with h1 | h1
        · exact absurd h1 haj
        · exact h1
      have hnd' : (histKeys t).Nodup := by
        simp only [histKeys, List.map_cons, List.nodup_cons] at hnd
        exact hnd.2
      simp only [histSum, List.map_cons, List.sum_cons]
      have hih := ih j hnd' hpt
      simp only [histSum] at hih
      omega

theorem histSum_histIncr (h : List (Nat × Nat)) (j : Nat)
    (hnd : (histKeys h).Nodup) :
    histSum (histIncr h j) = histSum h + 1 := by
  by_cases hp : (h.any fun p => p.1 == j) = true
  · rw [histIncr, if_pos hp]
    exact histSum_map_incr h j hnd hp
  · have hp' : (h.any fun p => p.1 == j) = false := Bool.eq_false_iff.mpr hp
    rw [histIncr, if_neg (by simp [hp'])]
    simp [histSum]

end AnalyzeDatabaseTableColumn

namespace AnalyzeDatabaseTableColumn

theorem histKeysNodup_histIncr (h : List (Nat × Nat)) (j : Nat)
    (hnd : (histKeys h).Nodup) : (histKeys (histIncr h j)).Nodup := by
  rw [histKeys_histIncr]
  by_cases hp : (h.any fun p => p.1 == j) = true
  · rw [if_pos hp]
    exact hnd
  · rw [if_neg hp]
    have hp' : (h.any fun p => p.1 == j) = false := Bool.eq_false_iff.mpr hp
    have hj : j ∉ histKeys h := by
      intro hc
      simp only [histKeys, List.mem_map] at hc
      obtain ⟨p, hpmem, hpj⟩ := hc
      have : (h.any fun p => p.1 == j) = true := by
        simp only [List.any_eq_true]
        exact ⟨p, hpmem, by simp [hpj]⟩
      rw [hp'] at this
      cases this
    simp only [List.nodup_append, List.nodup_cons, List.nodup_nil]
    refine ⟨hnd, by simp, ?_⟩
    intro a ha
    simp only [List.mem_singleton]
    intro hc
    rw [hc] at ha
    exact hj ha

theorem histLookup_histFoldList : ∀ (l : List Nat) (h : List (Nat × Nat)) (k : Nat),
    histLookup (histFoldList h l) k = histLookup h k + l.count k := by
  intro l
  induction l with
  | nil => intro h k; simp [histFoldList]
  | cons c t ih =>
    intro h k
    simp only [histFoldList, List.foldl_cons]
    have := ih (histIncr h c) k
    simp only [histFoldList] at this
    rw [this, histLookup_histIncr]
    by_cases hck : c = k
    · subst hck
      simp only [if_pos rfl, List.count_cons, beq_self_eq_true, if_true]
      omega
    · have hkc : (k == c) = false := by simpa using Ne.symm hck
      have hck' : (c == k) = false := by simpa using hck
      simp only [if_neg hck, List.count_cons, hkc, hck', Bool.false_eq_true, if_false]
      omega

theorem histSum_histFoldList : ∀ (l : List Nat) (h : List (Nat × Nat)),
    (histKeys h).Nodup →
    histSum (histFoldList h l) = histSum h + l.length ∧
      (histKeys (histFoldList h l)).Nodup := by
  intro l
  induction l with
  | nil => intro h hnd; simp [histFoldList, hnd]
  | cons c t ih =>
    intro h hnd
    simp only [histFoldList, List.foldl_cons]
    have hnd' := histKeysNodup_histIncr h c hnd
    have hih := ih (histIncr h c) hnd'
    simp only [histFoldList] at hih
    rw [hih.1, histSum_histIncr h c hnd]
    exact ⟨by simp only [List.length_cons]; omega, hih.2⟩

theorem histKeys_histFoldList_mem : ∀ (l : List Nat) (h : List (Nat × Nat)) (k : Nat),
    k ∈ histKeys (histFoldList h l) → k ∈ histKeys h ∨ k ∈ l := by
  intro l
  induction l with
  | nil => intro h k hk; exact Or.inl hk
  | cons c t ih =>
    intro h k hk
    simp only [histFoldList, List.foldl_cons] at hk
    have := ih (histIncr h c) k (by simpa [histFoldList] using hk)
    rcases this with h1 | h1
    · rw [histKeys_histIncr] at h1
      by_cases hp : (h.any fun p => p.1 == c) = true
      · rw [if_pos hp] at h1
        exact Or.inl h1
      · rw [if_neg hp] at h1
        rcases List.mem_append.mp h1 with h2 | h2
        · exact Or.inl h2
        · right
          simp only [List.mem_singleton] at h2
          simp [h2]
    · right
      simp [h1]

/-- Function `analyze_columns` is the fold of the observed column counts into the
empty histogram. -/
theorem analyze_columns_eq (env : DBEnv) (root_dir : String) (fs : Option FSTree) :
    analyze_columns env root_dir fs = histFoldList [] (observedCounts env root_dir fs) := by
  unfold analyze_columns observedCounts
  generalize get_database_files root_dir fs = files
  suffices haux : ∀ (files : List String) (h : List (Nat × Nat)),
      files.foldl
        (fun column_dist db_file =>
          ((get_column_stats env db_file).1).foldl
            (fun d p => histIncr d p.2.count) column_dist) h
      = histFoldList h (files.flatMap fun f =>
          ((get_column_stats env f).1).map fun p => p.2.count) by
    exact haux files []
  intro files
  induction files with
  | nil => intro h; simp [histFoldList]
  | cons f fl ih =>
    intro h
    simp only [List.foldl_cons, List.flatMap_cons]
    rw [ih]
    simp only [histFoldList, List.foldl_append]
    congr 1
    rw [List.foldl_map]

end AnalyzeDatabaseTableColumn

namespace AnalyzeDatabaseTableColumn

theorem foldl_min_spec : ∀ (xs : List Nat) (x : Nat),
    ((xs.foldl Nat.min x) = x ∨ (xs.foldl Nat.min x) ∈ xs) ∧
      (xs.foldl Nat.min x) ≤ x ∧ ∀ y ∈ xs, (xs.foldl Nat.min x) ≤ y := by
  intro xs
  induction xs with
  | nil => intro x; exact ⟨Or.inl rfl, le_refl x, by simp⟩
  | cons b t ih =>
    intro x
    simp only [List.foldl_cons]
    obtain ⟨hmem, hle, hall⟩ := ih (Nat.min x b)
    refine ⟨?_, le_trans hle (Nat.min_le_left x b), ?_⟩
    · rcases hmem with h | h
      · rw [h]
        by_cases hxb : x ≤ b
        · simp [Nat.min_def, hxb]
        · refine Or.inr ?_
          have hb : x.min b = b := by simp [Nat.min_def, hxb]
          rw [hb]
          simp
      · exact Or.inr (List.mem_cons_of_mem b h)
    · intro y hy
      rcases List.mem_cons.mp hy with h | h
      · rw [h]; exact le_trans hle (Nat.min_le_right x b)
      · exact hall y h

theorem foldl_max_spec : ∀ (xs : List Nat) (x : Nat),
    ((xs.foldl Nat.max x) = x ∨ (xs.foldl Nat.max x) ∈ xs) ∧
      x ≤ (xs.foldl Nat.max x) ∧ ∀ y ∈ xs, y ≤ (xs.foldl Nat.max x) := by
  intro xs
  induction xs with
  | nil => intro x; exact ⟨Or.inl rfl, le_refl x, by simp⟩
  | cons b t ih =>
    intro x
    simp only [List.foldl_cons]
    obtain ⟨hmem, hle, hall⟩ := ih (Nat.max x b)
    refine ⟨?_, le_trans (Nat.le_max_left x b) hle, ?_⟩
    · rcases hmem with h | h
      · rw [h]
        by_cases hxb : x ≤ b
        · refine Or.inr ?_
          have hb : x.max b = b := by simp [Nat.max_def, hxb]
          rw [hb]
          simp
        · simp [Nat.max_def, hxb]
      · exact Or.inr (List.mem_cons_of_mem b h)
    · intro y hy
      rcases List.mem_cons.mp hy with h | h
      · rw [h]; exact le_trans (Nat.le_max_right x b) hle
      · exact hall y h

theorem pyMin_spec (x0 : Nat) (xs : List Nat) :
    (xs.foldl Nat.min x0) ∈ x0 :: xs ∧ ∀ y ∈ x0 :: xs, (xs.foldl Nat.min x0) ≤ y := by
  obtain ⟨hmem, hle, hall⟩ := foldl_min_spec xs x0
  constructor
  · rcases hmem with h | h
    · rw [h]; simp
    · exact List.mem_cons_of_mem x0 h
  · intro y hy
    rcases List.mem_cons.mp hy with h | h
    · rw [h]; exact hle
    · exact hall y h

theorem pyMax_spec (x0 : Nat) (xs : List Nat) :
    (xs.foldl Nat.max x0) ∈ x0 :: xs ∧ ∀ y ∈ x0 :: xs, y ≤ (xs.foldl Nat.max x0) := by
  obtain ⟨hmem, hle, hall⟩ := foldl_max_spec xs x0
  constructor
  · rcases hmem with h | h
    · rw [h]; simp
    · exact List.mem_cons_of_mem x0 h
  · intro y hy
    rcases List.mem_cons.mp hy with h | h
    · rw [h]; exact hle
    · exact hall y h

theorem ceil_natCast_sub_half (m : Nat) : ⌈(m : ℚ) - 1/2⌉ = (m : ℤ) := by
  rw [Int.ceil_eq_iff] <;> push_cast <;> constructor <;> norm_num

theorem floor_natCast_add_half (M : Nat) : ⌊(M : ℚ) + 1/2⌋ = (M : ℤ) := by
  rw [Int.floor_eq_iff] <;> push_cast <;> try constructor <;> norm_num

/-- Evaluation of the tick positions for the ranges the script sets:
the integers from the minimum key to the maximum key. -/
theorem chartTicks_eval (c : BarChart) (m M : Nat)
    (hlo : c.rangeLo = (m : ℚ) - 1/2) (hhi : c.rangeHi = (M : ℚ) + 1/2) :
    chartTicks c = (List.range (M + 1 - m)).map (fun i => (m : ℤ) + i) := by
  unfold chartTicks
  rw [hlo, hhi, ceil_natCast_sub_half, floor_natCast_add_half]
  have hcount : ((M : ℤ) + 1 - (m : ℤ)).toNat = M + 1 - m := by omega
  rw [hcount]

/-- On a dict with distinct keys, lookup returns the stored value. -/
theorem histLookup_eq_of_mem : ∀ (d : List (Nat × Nat)) (k v : Nat),
    (d.map Prod.fst).Nodup → (k, v) ∈ d → histLookup d k = v := by
  intro d
  induction d with
  | nil => intro k v _ hmem; cases hmem
  | cons a t ih =>
    intro k v hnd hmem
    rw [histLookup_cons]
    rcases List.mem_cons.mp hmem with h | h
    · rw [← h]
      simp
    · by_cases hak : (a.1 == k) = true
      · exfalso
        simp only [List.map_cons, List.nodup_cons] at hnd
        apply hnd.1
        have hk : k ∈ t.map Prod.fst := List.mem_map_of_mem Prod.fst h
        have ha : a.1 = k := by simpa using hak
        rw [ha]
        exact hk
      · have hak' : (a.1 == k) = false := by simpa using hak
        simp only [hak', Bool.false_eq_true, if_false]
        refine ih k v ?_ h
        simp only [List.map_cons, List.nodup_cons] at hnd
        exact hnd.2

/-- Helper `colFirstErr` finds no error exactly when every pragma succeeds. -/
theorem colFirstErr_none_iff : ∀ (ts : List TableEntry),
    colFirstErr ts = none ↔ (ts.any fun t => !(exOk t.pragmaResult)) = false := by
  intro ts
  induction ts with
  | nil => simp [colFirstErr]
  | cons t rest ih =>
    match hp : t.pragmaResult with
    | .error m => simp [colFirstErr, hp, exOk]
    | .ok cols => simp [colFirstErr, hp, exOk, ih]

/-- The diagnostic lines of `get_column_stats`, described by the content. -/
theorem get_column_stats_log (env : DBEnv) (path : String) :
    (get_column_stats env path).2 =
      match env path with
      | .connectError m => [errLine path m]
      | .masterError m => [errLine path m]
      | .tables ts =>
        match colFirstErr ts with
        | none => []
        | some m => [errLine path m] := by
  cases henv : env path with
  | connectError m => simp [get_column_stats, henv]
  | masterError m => simp [get_column_stats, henv]
  | tables ts =>
    simp only [get_column_stats, henv, colStatsLoop_eq]
    cases colFirstErr ts <;> rfl

/-- The stored table statistics of `get_column_stats`, described by the
content: exactly the tables before the first pragma failure are
processed. -/
theorem get_column_stats_fst (env : DBEnv) (path : String) (ts : List TableEntry)
    (h : env path = .tables ts) :
    (get_column_stats env path).1 =
      (ts.takeWhile fun t => exOk t.pragmaResult).foldl
        (fun a t => dictInsert a (colRecord t).1 (colRecord t).2) [] := by
  simp only [get_column_stats, h, colStatsLoop_eq]
  cases colFirstErr ts <;> rfl

theorem get_column_stats_connectError (env : DBEnv) (path : String) (m : String)
    (h : env path = .connectError m) : (get_column_stats env path).1 = [] := by
  simp [get_column_stats, h]

theorem get_column_stats_masterError (env : DBEnv) (path : String) (m : String)
    (h : env path = .masterError m) : (get_column_stats env path).1 = [] := by
  simp [get_column_stats, h]

/-- On a fully successful database with distinct table names,
`get_column_stats` records one entry per catalog table, in order. -/
theorem get_column_stats_all_ok (env : DBEnv) (path : String) (ts : List TableEntry)
    (h : env path = .tables ts)
    (hok : ∀ t ∈ ts, exOk t.pragmaResult = true)
    (hnd : (ts.map TableEntry.name).Nodup) :
    (get_column_stats env path).1 = ts.map colRecord := by
  simp only [get_column_stats, h, colStatsLoop_all_ok ts [] hok hnd (by simp)]
  simp

end AnalyzeDatabaseTableColumn

/-- The offending path occurs verbatim inside the diagnostic line. -/
theorem errLine_has_path (path m : String) : path.data <:+: (errLine path m).data := by
  refine ⟨("处理数据库 ").data, (" 时出错: " ++ m).data, ?_⟩
  simp [errLine, string_data_append, List.append_assoc]

namespace AnalyzeDatabaseTables

theorem infoFirstErr_none_iff : ∀ (ts : List TableEntry),
    infoFirstErr ts = none ↔
      (ts.any fun t => !(exOk t.pragmaResult) || !(exOk t.countResult)) = false := by
  intro ts
  induction ts with
  | nil => simp [infoFirstErr]
  | cons t rest ih =>
    match hp : t.pragmaResult with
    | .error m => simp [infoFirstErr, hp, exOk]
    | .ok cols =>
      match hc : t.countResult with
      | .error m => simp [infoFirstErr, hp, hc, exOk]
      | .ok n => simp [infoFirstErr, hp, hc, exOk, ih]

/-- The diagnostic lines of `get_table_info`, described by the content. -/
theorem get_table_info_log (env : DBEnv) (path : String) :
    (get_table_info env path).2 =
      match env path with
      | .connectError m => [errLine path m]
      | .masterError m => [errLine path m]
      | .tables ts =>
        match infoFirstErr ts with
        | none => []
        | some m => [errLine path m] := by
  cases henv : env path with
  | connectError m => simp [get_table_info, henv]
  | masterError m => simp [get_table_info, henv]
  | tables ts =>
    simp only [get_table_info, henv, tableInfoLoop_eq]
    cases infoFirstErr ts <;> rfl

/-- The records of `get_table_info`, described by the content: exactly the
tables before the first failure are recorded, in catalog order. -/
theorem get_table_info_fst (env : DBEnv) (path : String) (ts : List TableEntry)
    (h : env path = .tables ts) :
    (get_table_info env path).1 =
      (ts.takeWhile fun t => exOk t.pragmaResult && exOk t.countResult).map
        (infoRecord (splitextBase (basename path))) := by
  simp only [get_table_info, h, tableInfoLoop_eq]
  cases infoFirstErr ts <;> rfl

theorem get_table_info_connectError (env : DBEnv) (path m : String)
    (h : env path = .connectError m) : (get_table_info env path).1 = [] := by
  simp [get_table_info, h]

theorem get_table_info_masterError (env : DBEnv) (path m : String)
    (h : env path = .masterError m) : (get_table_info env path).1 = [] := by
  simp [get_table_info, h]

/-- The main collection loop concatenates every file's records in
discovery order; every discovered file is processed. -/
theorem collect_all_eq_flatMap (env : DBEnv) (db_files : List String) :
    collect_all_tables_info env db_files =
      db_files.flatMap fun f => (get_table_info env f).1 := by
  suffices haux : ∀ (l : List String) (init : List TableInfo),
      l.foldl (fun a f => a ++ (get_table_info env f).1) init =
        init ++ l.flatMap (fun f => (get_table_info env f).1) by
    have := haux db_files []
    simpa [collect_all_tables_info] using this
  intro l
  induction l with
  | nil => intro init; simp
  | cons f fl ih =>
    intro init
    simp only [List.foldl_cons, List.flatMap_cons]
    rw [ih]
    simp [List.append_assoc]

end AnalyzeDatabaseTables

namespace AnalyzeDatabaseTableColumn

theorem plot_empty : plot_column_distribution [] = none := rfl

/-- On a nonempty distribution the plot function completes and produces a
figure. -/
theorem plot_some_of_ne (d : List (Nat × Nat)) (hne : d ≠ []) :
    ∃ c, plot_column_distribution d = some c := by
  obtain ⟨x0, xt, hxs⟩ :
      ∃ x0 xt, List.insertionSort (· ≤ ·) (d.map Prod.fst) = x0 :: xt := by
    have hperm := List.perm_insertionSort (· ≤ ·) (d.map Prod.fst)
    cases hh : List.insertionSort (· ≤ ·) (d.map Prod.fst) with
    | nil =>
      exfalso
      have hlen := hperm.length_eq
      rw [hh] at hlen
      simp only [List.length_nil, List.length_map] at hlen
      exact hne (List.length_eq_zero.mp hlen.symm)
    | cons a b => exact ⟨a, b, rfl⟩
  refine ⟨⟨x0 :: xt, (x0 :: xt).map (fun k => histLookup d k),
    (x0 :: xt).map (fun k => histLookup d k),
    ((xt.foldl Nat.min x0 : Nat) : ℚ) - 1/2,
    ((xt.foldl Nat.max x0 : Nat) : ℚ) + 1/2, 1⟩, ?_⟩
  simp only [plot_column_distribution]
  rw [hxs]
  rfl

end AnalyzeDatabaseTableColumn

namespace AnalyzeDatabaseTableColumn

/-- Per-file record count on a fully successful database. -/
theorem get_column_stats_length (env : DBEnv) (f : String)
    (hfail : colStatsFails (env f) = false)
    (hnd : ((dbTables (env f)).map TableEntry.name).Nodup) :
    ((get_column_stats env f).1).length = (dbTables (env f)).length := by
  cases henv : env f with
  | connectError m => rw [henv] at hfail; simp [colStatsFails] at hfail
  | masterError m => rw [henv] at hfail; simp [colStatsFails] at hfail
  | tables ts =>
    rw [henv] at hfail hnd
    simp only [colStatsFails] at hfail
    simp only [dbTables] at hnd ⊢
    have hok : ∀ t ∈ ts, exOk t.pragmaResult = true := by
      intro t ht
      have := List.any_eq_false.mp hfail t ht
      simpa using this
    rw [get_column_stats_all_ok env f ts henv hok hnd]
    simp

end AnalyzeDatabaseTableColumn

/-- C10: the File Discoverer is implemented twice, once in each script, and
the two implementations are extensionally equal: for every root directory
(and every filesystem behind it) both return the same list of paths in the
same order. -/
theorem claim_C10 : ∀ (root_dir : String) (fs : Option FSTree),
    AnalyzeDatabaseTableColumn.get_database_files root_dir fs =
      AnalyzeDatabaseTables.get_database_files root_dir fs :=
  fun _ _ => rfl

open AnalyzeDatabaseTables in
/-- C5: `write_csv_report` writes the fixed header row
`Database, Table, Rows, Columns, Column Names` followed by exactly one data
row per record, in input order, each row holding the record's database
name, table name, row count, column count and its column names joined with
a comma-space separator; reading the file back with a CSV reader yields
exactly these rows in order. -/
theorem claim_C5 (tables_info : List TableInfo) :
    parseCSV (write_csv_report tables_info).data =
      some (["Database", "Table", "Rows", "Columns", "Column Names"] ::
        tables_info.map (fun info =>
          [info.database_name, info.table_name, toString info.row_count,
           toString info.column_count, String.intercalate ", " info.column_names])) := by
  have hw : write_csv_report tables_info =
      csvLines (headerRow :: tables_info.map reportRow) := rfl
  rw [hw, parseCSV_roundtrip]
  · rfl
  · intro r hr
    rcases List.mem_cons.mp hr with h | h
    · rw [h]
      simp [headerRow]
    · obtain ⟨i, _, rfl⟩ := List.mem_map.mp h
      simp [reportRow]

open AnalyzeDatabaseTableColumn in
/-- C6: over any root directory whose walk holds exactly `N` files with a
recognized extension (at arbitrary depth), `get_database_files` returns
exactly `N` paths — each matching file once, joined to its directory, with
unrelated files excluded — and a nonexistent root yields the empty list,
as does a walk with no matching files. -/
theorem claim_C6 (root_dir : String) (t : FSTree) (N : Nat)
    (hN : numMatching (osWalk root_dir t) = N) :
    (get_database_files root_dir (some t)).length = N ∧
    get_database_files root_dir (some t) = walkDbFiles (osWalk root_dir t) ∧
    (∀ r : String, get_database_files r none = []) ∧
    (N = 0 → get_database_files root_dir (some t) = []) := by
  have heq : get_database_files root_dir (some t) = walkDbFiles (osWalk root_dir t) :=
    gdf_eq_walkDbFiles root_dir (some t)
  have hlen : (get_database_files root_dir (some t)).length = N := by
    rw [heq, walkDbFiles_length, hN]
  refine ⟨hlen, heq, fun r => rfl, fun h0 => ?_⟩
  exact List.length_eq_zero.mp (by rw [hlen, h0])

open AnalyzeDatabaseTableColumn AnalyzeDatabaseTables in
/-- C1: both schema inspectors are total; every exception is caught inside:
on a failing database file exactly one diagnostic line is printed and that
line contains the offending file path, on a successful file no diagnostic
is printed, and the caller's collection loop runs over every discovered
file (so one bad file never aborts the run). -/
theorem claim_C1 (env : DBEnv) (path : String) (db_files : List String) :
    ((get_column_stats env path).2.length =
        if colStatsFails (env path) then 1 else 0) ∧
    (∀ line ∈ (get_column_stats env path).2, path.data <:+: line.data) ∧
    ((get_table_info env path).2.length =
        if tableInfoFails (env path) then 1 else 0) ∧
    (∀ line ∈ (get_table_info env path).2, path.data <:+: line.data) ∧
    (collect_all_tables_info env db_files =
        db_files.flatMap fun f => (get_table_info env f).1) := by
  refine ⟨?_, ?_, ?_, ?_, collect_all_eq_flatMap env db_files⟩
  · rw [get_column_stats_log]
    cases henv : env path with
    | connectError m => simp [colStatsFails]
    | masterError m => simp [colStatsFails]
    | tables ts =>
      simp only [colStatsFails]
      cases he : colFirstErr ts with
      | none =>
        simp [(colFirstErr_none_iff ts).mp he]
      | some m =>
        have hany : (ts.any fun t => !(exOk t.pragmaResult)) = true := by
          by_contra hc
          have h0 : (ts.any fun t => !(exOk t.pragmaResult)) = false := by simpa using hc
          rw [(colFirstErr_none_iff ts).mpr h0] at he
          cases he
        simp [hany]
  · intro line
    rw [get_column_stats_log]
    cases henv : env path with
    | connectError m =>
      intro hline
      simp only [List.mem_singleton] at hline
      rw [hline]
      exact errLine_has_path path m
    | masterError m =>
      intro hline
      simp only [List.mem_singleton] at hline
      rw [hline]
      exact errLine_has_path path m
    | tables ts =>
      intro hline
      have hline2 : line ∈ (match colFirstErr ts with
          | none => ([] : List String)
          | some m => [errLine path m]) := hline
      cases he : colFirstErr ts with
      | none =>
        rw [he] at hline2
        simp at hline2
      | some m =>
        rw [he] at hline2
        simp only [List.mem_singleton] at hline2
        rw [hline2]
        exact errLine_has_path path m
  · rw [get_table_info_log]
    cases henv : env path with
    | connectError m => simp [tableInfoFails]
    | masterError m => simp [tableInfoFails]
    | tables ts =>
      simp only [tableInfoFails]
      cases he : infoFirstErr ts with
      | none =>
        simp [(infoFirstErr_none_iff ts).mp he]
      | some m =>
        have hany :
            (ts.any fun t => !(exOk t.pragmaResult) || !(exOk t.countResult)) = true := by
          by_contra hc
          have h0 : (ts.any fun t => !(exOk t.pragmaResult) || !(exOk t.countResult)) = false := by
            simpa using hc
          rw [(infoFirstErr_none_iff ts).mpr h0] at he
          cases he
        simp [hany]
  · intro line
    rw [get_table_info_log]
    cases henv : env path with
    | connectError m =>
      intro hline
      simp only [List.mem_singleton] at hline
      rw [hline]
      exact errLine_has_path path m
    | masterError m =>
      intro hline
      simp only [List.mem_singleton] at hline
      rw [hline]
      exact errLine_has_path path m
    | tables ts =>
      intro hline
      have hline2 : line ∈ (match infoFirstErr ts with
          | none => ([] : List String)
          | some m => [errLine path m]) := hline
      cases he : infoFirstErr ts with
      | none =>
        rw [he] at hline2
        simp at hline2
      | some m =>
        rw [he] at hline2
        simp only [List.mem_singleton] at hline2
        rw [hline2]
        exact errLine_has_path path m

open AnalyzeDatabaseTableColumn AnalyzeDatabaseTables in
/-- C2 (amended): a database file failing at open or at the table-listing
query contributes zero records; a failure while processing a table stops
that file's data pull at the failing table — records of the tables
processed before the failure are kept, and the failing table and all later
tables contribute nothing. -/
theorem claim_C2 (env : DBEnv) (path : String) :
    (∀ m, env path = .connectError m →
       (get_column_stats env path).1 = [] ∧ (get_table_info env path).1 = []) ∧
    (∀ m, env path = .masterError m →
       (get_column_stats env path).1 = [] ∧ (get_table_info env path).1 = []) ∧
    (∀ ts, env path = .tables ts →
       (get_column_stats env path).1 =
         ((ts.takeWhile fun t => exOk t.pragmaResult).foldl
            (fun a t => dictInsert a (colRecord t).1 (colRecord t).2) []) ∧
       (get_table_info env path).1 =
         ((ts.takeWhile fun t => exOk t.pragmaResult && exOk t.countResult).map
            (infoRecord (splitextBase (basename path))))) :=
  ⟨fun m h => ⟨get_column_stats_connectError env path m h,
      get_table_info_connectError env path m h⟩,
    fun m h => ⟨get_column_stats_masterError env path m h,
      get_table_info_masterError env path m h⟩,
    fun ts h => ⟨get_column_stats_fst env path ts h,
      get_table_info_fst env path ts h⟩⟩

open AnalyzeDatabaseTableColumn AnalyzeDatabaseTables in
/-- C2 (counterexample to the claim as stated): a file whose second table's
pragma query raises still contributes its first table's record to both
inspectors' results — the file's data pull is not discarded wholesale, so
it contributes more than zero records to the aggregates. -/
theorem claim_C2_counterexample :
    colStatsFails (envPartial "p.db") = true ∧
    tableInfoFails (envPartial "p.db") = true ∧
    (get_column_stats envPartial "p.db").1 = [("a", ⟨["x"], 1⟩)] ∧
    (get_table_info envPartial "p.db").1 = [⟨"p", "a", 1, ["x"], 0⟩] := by
  decide

open AnalyzeDatabaseTableColumn AnalyzeDatabaseTables in
/-- Witness for C2 (amended) at a concrete partially failing database. -/
theorem claim_C2_witness :
    (get_column_stats envPartial "p.db").1 =
      ((([⟨"a", .ok ["x"], .ok 0⟩,
          ⟨"b", .error "malformed database schema", .ok 0⟩] :
            List TableEntry).takeWhile fun t => exOk t.pragmaResult).foldl
        (fun a t => dictInsert a (colRecord t).1 (colRecord t).2) []) ∧
    (get_table_info envPartial "p.db").1 =
      ((([⟨"a", .ok ["x"], .ok 0⟩,
          ⟨"b", .error "malformed database schema", .ok 0⟩] :
            List TableEntry).takeWhile fun t => exOk t.pragmaResult && exOk t.countResult).map
        (infoRecord (splitextBase (basename "p.db")))) :=
  (claim_C2 envPartial "p.db").2.2
    [⟨"a", .ok ["x"], .ok 0⟩, ⟨"b", .error "malformed database schema", .ok 0⟩] rfl

open AnalyzeDatabaseTableColumn in
/-- C7: histogram aggregation is commutative — two runs whose observed
multisets of per-table column counts are permutations of one another
produce identical mappings (the same count at every key). -/
theorem claim_C7 (env1 env2 : DBEnv) (r1 r2 : String) (fs1 fs2 : Option FSTree)
    (hperm : (observedCounts env1 r1 fs1).Perm (observedCounts env2 r2 fs2))
    (k : Nat) :
    histLookup (analyze_columns env1 r1 fs1) k =
      histLookup (analyze_columns env2 r2 fs2) k := by
  rw [analyze_columns_eq, analyze_columns_eq,
    histLookup_histFoldList, histLookup_histFoldList]
  rw [hperm.count_eq k]

namespace AnalyzeDatabaseTableColumn

/-- Total observed-count list length over fully successful databases. -/
theorem observedCounts_length (env : DBEnv) : ∀ (files : List String),
    (∀ f ∈ files, colStatsFails (env f) = false ∧
      ((dbTables (env f)).map TableEntry.name).Nodup) →
    (files.flatMap fun f =>
      ((get_column_stats env f).1).map fun p => p.2.count).length
      = totalTables env files := by
  intro files
  induction files with
  | nil => intro _; simp [totalTables]
  | cons f fl ih =>
    intro hok
    simp only [List.flatMap_cons, List.length_append, List.length_map, totalTables,
      List.map_cons, List.sum_cons]
    have hf := hok f (by simp)
    rw [get_column_stats_length env f hf.1 hf.2]
    have hih := ih (fun g hg => hok g (by simp [hg]))
    simp only [totalTables] at hih
    rw [hih]

end AnalyzeDatabaseTableColumn

open AnalyzeDatabaseTableColumn in
/-- C3: when every discovered database is inspected successfully (and table
names are catalog-unique), the histogram's values sum to the total number
of tables across all databases, and every key of the mapping is the column
count of at least one observed table. -/
theorem claim_C3 (env : DBEnv) (root_dir : String) (fs : Option FSTree)
    (hok : ∀ f ∈ get_database_files root_dir fs,
      colStatsFails (env f) = false ∧
        ((dbTables (env f)).map TableEntry.name).Nodup) :
    histSum (analyze_columns env root_dir fs)
        = totalTables env (get_database_files root_dir fs) ∧
    ∀ k ∈ histKeys (analyze_columns env root_dir fs),
      k ∈ observedCounts env root_dir fs := by
  constructor
  · rw [analyze_columns_eq]
    have hsum := (histSum_histFoldList (observedCounts env root_dir fs) []
      (by simp [histKeys])).1
    rw [hsum]
    have hlen := observedCounts_length env (get_database_files root_dir fs) hok
    simp only [observedCounts]
    simpa [histSum] using hlen
  · intro k hk
    rw [analyze_columns_eq] at hk
    rcases histKeys_histFoldList_mem (observedCounts env root_dir fs) [] k hk with h | h
    · simp [histKeys] at h
    · exact h

open AnalyzeDatabaseTableColumn in
/-- C9: `plot_column_distribution` is partial exactly at the empty
distribution — it completes with a figure on every nonempty mapping and
fails (at `min(x)` over the empty key list) on the empty one, so an
end-to-end run that observed no tables does not produce a chart. -/
theorem claim_C9 :
    (∀ d : List (Nat × Nat), (plot_column_distribution d).isSome = !d.isEmpty) ∧
    (∀ (env : DBEnv) (root_dir : String) (fs : Option FSTree),
       observedCounts env root_dir fs = [] →
       plot_column_distribution (analyze_columns env root_dir fs) = none) := by
  constructor
  · intro d
    match d with
    | [] => rfl
    | p :: t =>
      obtain ⟨c, hc⟩ := plot_some_of_ne (p :: t) (by simp)
      rw [hc]
      rfl
  · intro env root_dir fs hobs
    rw [analyze_columns_eq, hobs]
    rfl

open AnalyzeDatabaseTableColumn in
/-- C4 (amended): on every nonempty distribution the chart has bars exactly
at the observed column counts (sorted ascending) with heights and text
annotations equal to their table counts, the x-axis range is padded by half
a unit on each side of the minimum and maximum keys, and the rendered tick
set is the consecutive integers from the minimum key to the maximum key. -/
theorem claim_C4 (d : List (Nat × Nat)) (hne : d ≠ [])
    (hnd : (d.map Prod.fst).Nodup) :
    ∃ c m M,
      plot_column_distribution d = some c ∧
      pyMin c.x = some m ∧ pyMax c.x = some M ∧
      c.x = List.insertionSort (· ≤ ·) (d.map Prod.fst) ∧
      c.x.Perm (d.map Prod.fst) ∧
      c.x.Sorted (· ≤ ·) ∧
      c.y = c.x.map (fun k => histLookup d k) ∧
      c.text = c.y ∧
      (∀ k v, (k, v) ∈ d → k ∈ c.x ∧ histLookup d k = v) ∧
      m ∈ d.map Prod.fst ∧ M ∈ d.map Prod.fst ∧
      (∀ k ∈ d.map Prod.fst, m ≤ k ∧ k ≤ M) ∧
      c.rangeLo = (m : ℚ) - 1/2 ∧ c.rangeHi = (M : ℚ) + 1/2 ∧ c.dtick = 1 ∧
      chartTicks c = (List.range (M + 1 - m)).map (fun i => (m : ℤ) + i) := by
  have hperm := List.perm_insertionSort (· ≤ ·) (d.map Prod.fst)
  obtain ⟨x0, xt, hxs⟩ :
      ∃ x0 xt, List.insertionSort (· ≤ ·) (d.map Prod.fst) = x0 :: xt := by
    cases hh : List.insertionSort (· ≤ ·) (d.map Prod.fst) with
    | nil =>
      exfalso
      have hlen := hperm.length_eq
      rw [hh] at hlen
      simp only [List.length_nil, List.length_map] at hlen
      exact hne (List.length_eq_zero.mp hlen.symm)
    | cons a b => exact ⟨a, b, rfl⟩
  have hpermx : (x0 :: xt).Perm (d.map Prod.fst) := by
    rw [← hxs]
    exact hperm
  have hplot : plot_column_distribution d =
      some ⟨x0 :: xt, (x0 :: xt).map (fun k => histLookup d k),
        (x0 :: xt).map (fun k => histLookup d k),
        ((xt.foldl Nat.min x0 : Nat) : ℚ) - 1/2,
        ((xt.foldl Nat.max x0 : Nat) : ℚ) + 1/2, 1⟩ := by
    simp only [plot_column_distribution]
    rw [hxs]
    rfl
  refine ⟨_, xt.foldl Nat.min x0, xt.foldl Nat.max x0, hplot, rfl, rfl,
    hxs.symm, hpermx, ?_, rfl, rfl, ?_, ?_, ?_, ?_, rfl, rfl, rfl, ?_⟩
  · rw [← hxs]
    exact List.sorted_insertionSort (· ≤ ·) (d.map Prod.fst)
  · intro k v hkv
    refine ⟨?_, histLookup_eq_of_mem d k v hnd hkv⟩
    exact hpermx.mem_iff.mpr (List.mem_map_of_mem Prod.fst hkv)
  · exact hpermx.mem_iff.mp (pyMin_spec x0 xt).1
  · exact hpermx.mem_iff.mp (pyMax_spec x0 xt).1
  · intro k hk
    have hkx : k ∈ x0 :: xt := hpermx.mem_iff.mpr hk
    exact ⟨(pyMin_spec x0 xt).2 k hkx, (pyMax_spec x0 xt).2 k hkx⟩
  · exact chartTicks_eval _ (xt.foldl Nat.min x0) (xt.foldl Nat.max x0) rfl rfl

open AnalyzeDatabaseTableColumn in
/-- C4 (counterexample to the claim as stated): for the histogram
`{3 ↦ 2, 5 ↦ 1}` the rendered tick set is `[3, 4, 5]` (the linear axis
with unit step over the half-unit-padded range), which is not the sorted
set of distinct observed column counts `[3, 5]`: the tick `4` appears
although no table has 4 columns. -/
theorem claim_C4_counterexample :
    (plot_column_distribution [(3, 2), (5, 1)]).map chartTicks = some [3, 4, 5] ∧
    (plot_column_distribution [(3, 2), (5, 1)]).map chartTicks ≠
      some ((List.insertionSort (· ≤ ·)
        (([(3, 2), (5, 1)] : List (Nat × Nat)).map Prod.fst)).map Int.ofNat) ∧
    (4 : ℤ) ∈ [(3 : ℤ), 4, 5] ∧
    (4 : Nat) ∉ (([(3, 2), (5, 1)] : List (Nat × Nat)).map Prod.fst) := by
  have hplot : plot_column_distribution [(3, 2), (5, 1)] =
      some ⟨[3, 5], [2, 1], [2, 1], ((3 : Nat) : ℚ) - 1/2, ((5 : Nat) : ℚ) + 1/2, 1⟩ := by
    rfl
  have hticks : chartTicks
      ⟨[3, 5], [2, 1], [2, 1], ((3 : Nat) : ℚ) - 1/2, ((5 : Nat) : ℚ) + 1/2, 1⟩
        = [3, 4, 5] := by
    rw [chartTicks_eval _ 3 5 rfl rfl]
    decide
  have hmap : (plot_column_distribution [(3, 2), (5, 1)]).map chartTicks =
      some [3, 4, 5] := by
    rw [hplot]
    simpa using hticks
  refine ⟨hmap, ?_, by decide, by decide⟩
  rw [hmap]
  decide

open AnalyzeDatabaseTableColumn AnalyzeDatabaseTables in
/-- C8: every table record produced by either schema inspector has its
column count equal to the length of its column-name list; in particular a
table whose column-metadata query returns no columns is recorded with count
zero and an empty name list, without a crash. -/
theorem claim_C8 (env : DBEnv) (path : String) :
    (∀ p ∈ (get_column_stats env path).1, p.2.count = p.2.columns.length) ∧
    (∀ info ∈ (get_table_info env path).1,
      info.column_count = info.column_names.length) := by
  constructor
  · intro p hp
    cases henv : env path with
    | connectError m =>
      rw [get_column_stats_connectError env path m henv] at hp
      cases hp
    | masterError m =>
      rw [get_column_stats_masterError env path m henv] at hp
      cases hp
    | tables ts =>
      have hfst : (get_column_stats env path).1 = (colStatsLoop ts []).1 := by
        simp only [get_column_stats, henv]
        cases hcl : colStatsLoop ts [] with
        | mk a b => cases b <;> rfl
      rw [hfst] at hp
      exact colStatsLoop_count_invariant ts [] (by simp) p hp
  · intro info hinfo
    cases henv : env path with
    | connectError m =>
      rw [get_table_info_connectError env path m henv] at hinfo
      cases hinfo
    | masterError m =>
      rw [get_table_info_masterError env path m henv] at hinfo
      cases hinfo
    | tables ts =>
      rw [get_table_info_fst env path ts henv] at hinfo
      obtain ⟨t, _, rfl⟩ := List.mem_map.mp hinfo
      rfl

open AnalyzeDatabaseTableColumn AnalyzeDatabaseTables in
/-- Witness for C1 at a file whose connection fails, among other files. -/
theorem claim_C1_witness :
    ((get_column_stats envConnectFail "bad.db").2.length =
        if colStatsFails (envConnectFail "bad.db") then 1 else 0) ∧
    ("bad.db").data <:+: (errLine "bad.db" "unable to open database file").data ∧
    ((get_table_info envConnectFail "bad.db").2.length =
        if tableInfoFails (envConnectFail "bad.db") then 1 else 0) ∧
    (collect_all_tables_info envConnectFail ["bad.db", "ok.db"] =
        ["bad.db", "ok.db"].flatMap fun f => (get_table_info envConnectFail f).1) :=
  ⟨(claim_C1 envConnectFail "bad.db" ["bad.db", "ok.db"]).1,
   (claim_C1 envConnectFail "bad.db" ["bad.db", "ok.db"]).2.1
     (errLine "bad.db" "unable to open database file") (by decide),
   (claim_C1 envConnectFail "bad.db" ["bad.db", "ok.db"]).2.2.1,
   (claim_C1 envConnectFail "bad.db" ["bad.db", "ok.db"]).2.2.2.2⟩

open AnalyzeDatabaseTableColumn in
/-- Witness for C3 over one directory holding one successful database. -/
theorem claim_C3_witness :
    histSum (analyze_columns envAllOk "r" (some treeOne)) =
      totalTables envAllOk (get_database_files "r" (some treeOne)) ∧
    (2 : Nat) ∈ observedCounts envAllOk "r" (some treeOne) :=
  ⟨(claim_C3 envAllOk "r" (some treeOne) (by decide)).1,
   (claim_C3 envAllOk "r" (some treeOne) (by decide)).2 2 (by decide)⟩

open AnalyzeDatabaseTableColumn in
/-- Witness for C4 (amended) at the histogram `{3 ↦ 2, 5 ↦ 1}`. -/
theorem claim_C4_witness :
    ∃ c m M,
      plot_column_distribution [(3, 2), (5, 1)] = some c ∧
      pyMin c.x = some m ∧ pyMax c.x = some M ∧
      c.x = List.insertionSort (· ≤ ·)
        (([(3, 2), (5, 1)] : List (Nat × Nat)).map Prod.fst) ∧
      c.x.Perm (([(3, 2), (5, 1)] : List (Nat × Nat)).map Prod.fst) ∧
      c.x.Sorted (· ≤ ·) ∧
      c.y = c.x.map (fun k => histLookup [(3, 2), (5, 1)] k) ∧
      c.text = c.y ∧
      (∀ k v, (k, v) ∈ ([(3, 2), (5, 1)] : List (Nat × Nat)) →
        k ∈ c.x ∧ histLookup [(3, 2), (5, 1)] k = v) ∧
      m ∈ (([(3, 2), (5, 1)] : List (Nat × Nat)).map Prod.fst) ∧
      M ∈ (([(3, 2), (5, 1)] : List (Nat × Nat)).map Prod.fst) ∧
      (∀ k ∈ (([(3, 2), (5, 1)] : List (Nat × Nat)).map Prod.fst), m ≤ k ∧ k ≤ M) ∧
      c.rangeLo = (m : ℚ) - 1/2 ∧ c.rangeHi = (M : ℚ) + 1/2 ∧ c.dtick = 1 ∧
      chartTicks c = (List.range (M + 1 - m)).map (fun i => (m : ℤ) + i) :=
  claim_C4 [(3, 2), (5, 1)] (by decide) (by decide)

open AnalyzeDatabaseTableColumn in
/-- Witness for C6 on a nested directory with two matching files and one
unrelated file, plus a nonexistent root. -/
theorem claim_C6_witness :
    (get_database_files "root" (some treeNested)).length = 2 ∧
    get_database_files "nowhere" none = [] :=
  ⟨(claim_C6 "root" treeNested 2 (by decide)).1,
   (claim_C6 "root" treeNested 2 (by decide)).2.2.1 "nowhere"⟩

open AnalyzeDatabaseTableColumn in
/-- Witness for C7: the same two databases processed in both orders give a
histogram with the same value at the key 2. -/
theorem claim_C7_witness :
    histLookup (analyze_columns envSwap "r" (some treeTwo)) 2 =
      histLookup (analyze_columns envSwap "r" (some treeTwoRev)) 2 :=
  claim_C7 envSwap envSwap "r" "r" (some treeTwo) (some treeTwoRev) (by decide) 2

open AnalyzeDatabaseTableColumn in
/-- Witness for C8 at a database holding one zero-column table. -/
theorem claim_C8_witness :
    (("t", (⟨[], 0⟩ : TableStat)) ∈ (get_column_stats envZeroCols "z.db").1) ∧
    ("t", (⟨[], 0⟩ : TableStat)).2.count =
      ("t", (⟨[], 0⟩ : TableStat)).2.columns.length :=
  ⟨by decide, (claim_C8 envZeroCols "z.db").1 ("t", ⟨[], 0⟩) (by decide)⟩

open AnalyzeDatabaseTableColumn in
/-- Witness for C9: the empty distribution yields no figure, and a run over
a nonexistent root observes nothing and produces no chart. -/
theorem claim_C9_witness :
    (plot_column_distribution ([] : List (Nat × Nat))).isSome =
      !([] : List (Nat × Nat)).isEmpty ∧
    plot_column_distribution (analyze_columns envAllOk "r" none) = none :=
  ⟨claim_C9.1 [], claim_C9.2 envAllOk "r" none rfl⟩
